import Mathlib

/-!
Shallow embedding of the snapshot version resolution engine of `httm`
(`src/lookup/versions.rs`, `src/parse/mounts.rs`), together with proofs of
the specification's claims about it.
-/

namespace Httm

/-- Modelled from the spec: `PathMetadata` (declared in `data/paths.rs`,
which is not under `src/`). "A filesystem path plus optional captured
metadata (modification time, size, ...)": the captured metadata is the
modification time and the size. Times and sizes are modelled as naturals. -/
structure PathMetadata where
  size : Nat
  modify_time : Nat
  deriving DecidableEq, Repr

/-- Modelled from the spec: `PathData` (`data/paths.rs`, not under `src/`).
"a filesystem path plus optional captured metadata ... Metadata is `None`
when the path does not exist (phantom record)". -/
structure PathData where
  path : String
  metadata : Option PathMetadata
  deriving DecidableEq, Repr

/-- Modelled from the spec: the placeholder metadata a phantom record
compares with (`PHANTOM_PATH_METADATA` in `data/paths.rs`, not under
`src/`): zero size and the epoch modification time. -/
def PHANTOM_PATH_METADATA : PathMetadata := ⟨0, 0⟩

/-- Modelled from the spec: `PathData::md_infallible` (`data/paths.rs`, not
under `src/`): the captured metadata, or the phantom placeholder when the
record is phantom. -/
def PathData.md_infallible (pd : PathData) : PathMetadata :=
  pd.metadata.getD PHANTOM_PATH_METADATA

/-- Rust `LastSnapMode` (declared in `config/generate.rs`; its variants are
exactly those matched in `VersionsMap::last_snap`). -/
inductive LastSnapMode where
  | Any
  | DittoOnly
  | NoDittoExclusive
  | NoDittoInclusive
  | Without
  deriving DecidableEq, Repr

/-- Rust `BulkExclusion` (declared in `config/generate.rs`; `VersionsMap::new`
matches only the `NoSnap` variant). -/
inductive BulkExclusion where
  | NoFiles
  | NoSnap
  deriving DecidableEq, Repr

/-- A `VersionsMap` is a `BTreeMap<PathData, Vec<PathData>>`; we embed it as
an association list from live-path record to its version list, which is all
the post-processing passes use of it (they only iterate entries). -/
abbrev VersionsMap := List (PathData × List PathData)

/-- Rust `VersionsMap::is_live_version_redundant` (versions.rs:130-136): the last
snapshot's metadata equals the live path's; `false` when the list is empty. -/
def is_live_version_redundant (live_pathdata : PathData) (snaps : List PathData) : Bool :=
  match snaps.getLast? with
  | some last_snap => last_snap.md_infallible == live_pathdata.md_infallible
  | none => false

/-- Per-entry body of `VersionsMap::omit_ditto` (versions.rs:138-145):
`snaps.pop()` when the live version is redundant. -/
def omit_ditto_one (pathdata : PathData) (snaps : List PathData) : List PathData :=
  if is_live_version_redundant pathdata snaps then snaps.dropLast else snaps

/-- Rust `VersionsMap::omit_ditto` (versions.rs:138-145): applied to every entry
of the map in place. -/
def omit_ditto (m : VersionsMap) : VersionsMap :=
  m.map (fun e => (e.1, omit_ditto_one e.1 e.2))

/-- Per-entry body of `VersionsMap::last_snap` (versions.rs:147-171): the
Rust `match` on `snaps.last()` and then on the mode, with its guards
(`DittoOnly if eq`, `NoDittoExclusive | NoDittoInclusive if ne`) tried in
order and `_ => Vec::new()` otherwise. -/
def last_snap_one (last_snap_mode : LastSnapMode) (pathdata : PathData)
    (snaps : List PathData) : List PathData :=
  match snaps.getLast? with
  | some last =>
    match last_snap_mode with
    | .Any => [last]
    | .DittoOnly =>
        if pathdata.md_infallible == last.md_infallible then [last] else []
    | .NoDittoExclusive | .NoDittoInclusive =>
        if pathdata.md_infallible != last.md_infallible then [last] else []
    | .Without => []
  | none =>
    match last_snap_mode with
    | .Without | .NoDittoInclusive => [pathdata]
    | _ => []

/-- Rust `VersionsMap::last_snap` (versions.rs:147-171): applied to every entry
of the map in place. -/
def last_snap (m : VersionsMap) (last_snap_mode : LastSnapMode) : VersionsMap :=
  m.map (fun e => (e.1, last_snap_one last_snap_mode e.1 e.2))

/-! ## The snapshot path prober (`RelativePathAndSnapMounts::versions_unprocessed`) -/

/-- The `io::ErrorKind` distinctions `versions_unprocessed` makes: it matches
`PermissionDenied` and treats every other kind (`NotFound` being the common
case) alike. -/
inductive IoErrorKind where
  | PermissionDenied
  | NotFound
  | OtherKind
  deriving DecidableEq, Repr

/-- The result of `Path::symlink_metadata` on a candidate path: the metadata
on success, or an error kind. The filesystem is external state; a probing
run is parameterized by a function `stat : String → StatResult` that models
`symlink_metadata` (which reads metadata without following a final symbolic
link). -/
inductive StatResult where
  | ok (md : PathMetadata)
  | err (kind : IoErrorKind)
  deriving DecidableEq, Repr

/-- Rust `ListSnapsOfType` (declared in `config/generate.rs`; the variants are
exactly those matched in `sort_dedup_versions`). -/
inductive ListSnapsOfType where
  | All
  | UniqueMetadata
  | UniqueContents
  deriving DecidableEq, Repr

/-- Modelled from the spec: `CompareVersionsContainer` (`data/paths.rs`, not
under `src/`) wraps a probed `PathData` together with what the
`UniqueContents` policy compares: "`UniqueContents` as requiring an actual
byte-content comparison" — the file's byte content is abstracted as a
natural number supplied by a content oracle. -/
structure CompareVersionsContainer where
  pathdata : PathData
  contents : Nat
  deriving DecidableEq, Repr

/-- Rust `PathData::from(container)` — the container gives back its record. -/
def CompareVersionsContainer.toPathData (c : CompareVersionsContainer) : PathData :=
  c.pathdata

/-- Rust `PathBuf::join` for the candidate construction
`path.join(self.relative_path)` (versions.rs:356), for a relative suffix. -/
def joinPath (root relative : String) : String :=
  root ++ "/" ++ relative

/-- The outcome of processing one candidate snapshot path in
`versions_unprocessed` (versions.rs:357-378): emit a record, silently omit,
or print a diagnostic and `std::process::exit(1)`. -/
inductive ProbeOutcome where
  | emit (record : CompareVersionsContainer)
  | omit
  | fatalExit (status : Nat)
  deriving DecidableEq, Repr

/-- The per-candidate body of `versions_unprocessed` (versions.rs:357-378):
`symlink_metadata` success wraps the metadata in a record for the joined
path; `PermissionDenied` prints a diagnostic and exits the process with
status 1; any other error kind yields `None` (the candidate is filtered
out). `contentsOf` is the content oracle used by the container. -/
def probe_candidate (stat : String → StatResult) (contentsOf : String → Nat)
    (joined_path : String) : ProbeOutcome :=
  match stat joined_path with
  | .ok md => .emit ⟨⟨joined_path, some md⟩, contentsOf joined_path⟩
  | .err .PermissionDenied => .fatalExit 1
  | .err _ => .omit

/-- Collecting the per-candidate outcomes of a probing run: emitted records
are gathered in order, omissions are skipped, and a fatal outcome terminates
the whole process (modelled as `Except.error` carrying the exit status). -/
def collect_outcomes : List ProbeOutcome → Except Nat (List CompareVersionsContainer)
  | [] => .ok []
  | .emit record :: rest => (collect_outcomes rest).map (record :: ·)
  | .omit :: rest => collect_outcomes rest
  | .fatalExit status :: _ => .error status

/-- Rust `RelativePathAndSnapMounts::versions_unprocessed` (versions.rs:347-379):
join every snapshot mount root with the relative path and probe each
candidate. -/
def versions_unprocessed (stat : String → StatResult) (contentsOf : String → Nat)
    (snap_mounts : List String) (relative_path : String) :
    Except Nat (List CompareVersionsContainer) :=
  collect_outcomes
    ((snap_mounts.map (fun path => joinPath path relative_path)).map
      (probe_candidate stat contentsOf))

/-- The record a successful probe of candidate `c` emits: the candidate
path carrying the metadata `symlink_metadata` returned. -/
def probe_success (stat : String → StatResult) (contentsOf : String → Nat)
    (c : String) : Option CompareVersionsContainer :=
  match stat c with
  | .ok md => some ⟨⟨c, some md⟩, contentsOf c⟩
  | .err _ => none

/-! ## Sorting and deduplication (`RelativePathAndSnapMounts::sort_dedup_versions`) -/

/-- Lexicographic comparison of paths character by character (the order on
Rust's `PathBuf` is lexicographic over its components' bytes; for the
slash-separated strings we model paths as, character-lexicographic order
serves as the tie-break key). -/
def chars_le : List Char → List Char → Bool
  | [], _ => true
  | _ :: _, [] => false
  | a :: as, b :: bs =>
    if a < b then true else if b < a then false else chars_le as bs

theorem chars_le_total : ∀ a b : List Char,
    chars_le a b = true ∨ chars_le b a = true := by
  intro a
  induction a with
  | nil => intro b; exact Or.inl rfl
  | cons x xs ih =>
    intro b
    cases b with
    | nil => exact Or.inr rfl
    | cons y ys =>
      rcases lt_trichotomy x y with h | rfl | h
      · left; simp [chars_le, h]
      · rcases ih ys with h' | h'
        · left; simp [chars_le, lt_irrefl, h']
        · right; simp [chars_le, lt_irrefl, h']
      · right; simp [chars_le, h]

theorem chars_le_trans : ∀ a b c : List Char, chars_le a b = true →
    chars_le b c = true → chars_le a c = true := by
  intro a
  induction a with
  | nil => intro b c _ _; rfl
  | cons x xs ih =>
    intro b c hab hbc
    cases b with
    | nil => exact absurd hab (by simp [chars_le])
    | cons y ys =>
      cases c with
      | nil => exact absurd hbc (by simp [chars_le])
      | cons z zs =>
        rcases lt_trichotomy x y with hxy | rfl | hxy
        · rcases lt_trichotomy y z with hyz | rfl | hyz
          · simp [chars_le, lt_trans hxy hyz]
          · simp [chars_le, hxy]
          · simp [chars_le, hyz, lt_asymm hyz] at hbc
        · simp only [chars_le, lt_irrefl, if_false] at hab
          rcases lt_trichotomy x z with hxz | rfl | hxz
          · simp [chars_le, hxz]
          · simp only [chars_le, lt_irrefl, if_false] at hbc ⊢
            exact ih ys zs hab hbc
          · simp [chars_le, hxz, lt_asymm hxz] at hbc
        · simp [chars_le, hxy, lt_asymm hxy] at hab

/-- The version ordering on records: ascending by modification time, ties
broken by path. -/
def pd_le (a b : PathData) : Prop :=
  a.md_infallible.modify_time < b.md_infallible.modify_time ∨
    (a.md_infallible.modify_time = b.md_infallible.modify_time ∧
      chars_le a.path.data b.path.data = true)

instance : DecidableRel pd_le := fun a b => by
  unfold pd_le; exact inferInstance

/-- Modelled from the spec: the order of `CompareVersionsContainer`'s `Ord`
(`data/paths.rs`, not under `src/`): "sort candidates ascending by
modification time (tie-break by path)". The container compares by its
record's key. -/
def cvc_le (a b : CompareVersionsContainer) : Prop :=
  pd_le a.pathdata b.pathdata

instance : DecidableRel cvc_le := fun a b => by
  unfold cvc_le; exact inferInstance

theorem pd_le_total (a b : PathData) : pd_le a b ∨ pd_le b a := by
  rcases Nat.lt_trichotomy a.md_infallible.modify_time b.md_infallible.modify_time with
    h | h | h
  · exact Or.inl (Or.inl h)
  · rcases chars_le_total a.path.data b.path.data with hp | hp
    · exact Or.inl (Or.inr ⟨h, hp⟩)
    · exact Or.inr (Or.inr ⟨h.symm, hp⟩)
  · exact Or.inr (Or.inl h)

theorem pd_le_trans {a b c : PathData} (hab : pd_le a b) (hbc : pd_le b c) :
    pd_le a c := by
  rcases hab with h1 | ⟨h1, hp1⟩ <;> rcases hbc with h2 | ⟨h2, hp2⟩
  · exact Or.inl (h1.trans h2)
  · exact Or.inl (h2 ▸ h1)
  · exact Or.inl (h1 ▸ h2)
  · exact Or.inr ⟨h1.trans h2, chars_le_trans _ _ _ hp1 hp2⟩

instance : IsTotal CompareVersionsContainer cvc_le where
  total a b := pd_le_total a.pathdata b.pathdata

instance : IsTrans CompareVersionsContainer cvc_le where
  trans _ _ _ hab hbc := pd_le_trans hab hbc

/-- Modelled from the spec: the equality `Vec::dedup` uses on
`CompareVersionsContainer` (its `PartialEq`, `data/paths.rs`, not under
`src/`): "treat `UniqueMetadata` as 'modification time + size' equality and
`UniqueContents` as requiring an actual byte-content comparison". Under
`All` dedup is never invoked. -/
def cvc_eq (uniqueness : ListSnapsOfType) (a b : CompareVersionsContainer) : Bool :=
  match uniqueness with
  | .UniqueContents => a.contents == b.contents
  | _ => a.pathdata.md_infallible == b.pathdata.md_infallible

/-- The tail of a `Vec::dedup` run: `kept` is the last retained element;
each candidate equal to it is dropped, and a differing candidate is
retained and becomes the new comparison point. -/
def vec_dedup_tail (eqb : α → α → Bool) (kept : α) : List α → List α
  | [] => []
  | y :: ys => if eqb kept y then vec_dedup_tail eqb kept ys
      else y :: vec_dedup_tail eqb y ys

/-- Rust `Vec::dedup` / `dedup_by`: remove all but the first of each run of
consecutive elements equal under `eqb`, comparing each candidate against
the last retained element. -/
def vec_dedup (eqb : α → α → Bool) : List α → List α
  | [] => []
  | x :: xs => x :: vec_dedup_tail eqb x xs

/-- Rust `RelativePathAndSnapMounts::sort_dedup_versions` (versions.rs:382-396):
sort (the deterministic `insertionSort` models `sort_unstable`, whose
contract is a sorted permutation), then under the two `Unique` modes dedup
adjacent equal entries; under `All` keep everything. -/
def sort_dedup_versions (versions : List CompareVersionsContainer)
    (snaps_of_type : ListSnapsOfType) : List PathData :=
  let sorted := versions.insertionSort cvc_le
  match snaps_of_type with
  | .All => sorted.map CompareVersionsContainer.toPathData
  | .UniqueContents | .UniqueMetadata =>
      (vec_dedup (cvc_eq snaps_of_type) sorted).map CompareVersionsContainer.toPathData

/-! ## The aggregator (`VersionsMap::new`) -/

/-- The slice of `Config` (`config/generate.rs`) that `VersionsMap::new`
and its post-processing passes consult. -/
structure Config where
  opt_bulk_exclusion : Option BulkExclusion
  opt_omit_ditto : Bool
  opt_last_snap : Option LastSnapMode
  deriving DecidableEq, Repr

/-- Rust `VersionsMap::new` (versions.rs:68-114) after the parallel probing
step: `all_snap_versions` is the freshly collected map (one entry per input
path, carrying that path's probed version list). If every value list is
empty and every key is phantom and the caller has not requested
`BulkExclusion::NoSnap`, fail with the "nothing found" error; otherwise run
`omit_ditto` when requested, then `last_snap` when a mode is set, and return
the map. -/
def VersionsMap.new (config : Config) (all_snap_versions : VersionsMap) :
    Except String VersionsMap :=
  if all_snap_versions.all (fun e => e.2.isEmpty) &&
      all_snap_versions.all (fun e => e.1.metadata.isNone) &&
      !(config.opt_bulk_exclusion == some BulkExclusion.NoSnap) then
    .error "httm could not find either a live copy or a snapshot copy of any specified file, so, umm, 🤷? Please try another file."
  else
    let afterDitto := if config.opt_omit_ditto then omit_ditto all_snap_versions
      else all_snap_versions
    let afterLast := match config.opt_last_snap with
      | some last_snap_mode => last_snap afterDitto last_snap_mode
      | none => afterDitto
    .ok afterLast

/-! ## Search-bundle construction (`VersionsMap::search_bundles_from_pathdata`) -/

/-- Rust `SnapDatasetType` (versions.rs:174-178). -/
inductive SnapDatasetType where
  | MostProximate
  | AltReplicated
  deriving DecidableEq, Repr

/-- Rust `SnapsSelectedForSearch` (versions.rs:180-184). -/
inductive SnapsSelectedForSearch where
  | MostProximateOnly
  | IncludeAltReplicated
  deriving DecidableEq, Repr

/-- Rust `INCLUDE_ALTS` (versions.rs:186-192): "alt replicated should come first,
so as to be at the top of results". -/
def INCLUDE_ALTS : List SnapDatasetType :=
  [SnapDatasetType.AltReplicated, SnapDatasetType.MostProximate]

/-- Rust `ONLY_PROXIMATE` (versions.rs:194). -/
def ONLY_PROXIMATE : List SnapDatasetType := [SnapDatasetType.MostProximate]

/-- Rust `SnapsSelectedForSearch::as_slice` (versions.rs:196-204). -/
def SnapsSelectedForSearch.as_slice : SnapsSelectedForSearch → List SnapDatasetType
  | .IncludeAltReplicated => INCLUDE_ALTS
  | .MostProximateOnly => ONLY_PROXIMATE

/-- Rust `MostProximateAndOptAlts` (versions.rs:206-210): a proximate dataset
mount plus the optional list of replicated datasets of interest. Mount
points are modelled as strings. -/
structure MostProximateAndOptAlts where
  proximate_dataset_mount : String
  opt_datasets_of_interest : Option (List String)
  deriving DecidableEq, Repr

/-- Rust `MostProximateAndOptAlts::new` (versions.rs:212-268) for a path whose
proximate dataset mount has already been resolved (that resolution lives in
`data/paths.rs`): in `MostProximate` mode return the proximate mount with no
datasets of interest; in `AltReplicated` mode look the proximate mount up in
the map of alternates (`opt_map_of_alts`), and fail — an error the caller
flattens, modelled as `none` — when the map is absent or has no entry. -/
def MostProximateAndOptAlts.new
    (opt_map_of_alts : Option (String → Option MostProximateAndOptAlts))
    (proximate_dataset_mount : String) :
    SnapDatasetType → Option MostProximateAndOptAlts
  | .MostProximate => some ⟨proximate_dataset_mount, none⟩
  | .AltReplicated =>
    match opt_map_of_alts with
    | some map_of_alts => map_of_alts proximate_dataset_mount
    | none => none

/-- Rust `RelativePathAndSnapMounts` (versions.rs:296-300). -/
structure RelativePathAndSnapMounts where
  relative_path : String
  snap_mounts : List String
  deriving DecidableEq, Repr

/-- Rust `RelativePathAndSnapMounts::new` (versions.rs:302-329) for a fixed path:
`relative_path_of` models `pathdata.relative_path(proximate_dataset_mount)`
(`data/paths.rs`) and `map_of_snaps` the snapshot directory index; either
lookup failing is an error the caller flattens, modelled as `none`. -/
def RelativePathAndSnapMounts.new (relative_path_of : String → Option String)
    (map_of_snaps : String → Option (List String))
    (proximate_dataset_mount dataset_of_interest : String) :
    Option RelativePathAndSnapMounts :=
  (relative_path_of proximate_dataset_mount).bind fun relative_path =>
    (map_of_snaps dataset_of_interest).map fun snap_mounts =>
      ⟨relative_path, snap_mounts⟩

/-- Rust `collect::<Result<Vec<_>, _>>()`: gather the values in order, or
fail with the first failure. -/
def collect_results : List (Option α) → Option (List α)
  | [] => some []
  | none :: _ => none
  | some x :: rest => (collect_results rest).map (x :: ·)

/-- Rust `MostProximateAndOptAlts::into_search_bundles` (versions.rs:270-294):
one bundle per dataset of interest when alternates are present (`collect`
over `Result`s: any failure fails the whole vector), otherwise a single
bundle for the proximate dataset itself. -/
def into_search_bundles (relative_path_of : String → Option String)
    (map_of_snaps : String → Option (List String))
    (datasets_of_interest : MostProximateAndOptAlts) :
    Option (List RelativePathAndSnapMounts) :=
  match datasets_of_interest.opt_datasets_of_interest with
  | some datasets =>
    collect_results (datasets.map
      (RelativePathAndSnapMounts.new relative_path_of map_of_snaps
        datasets_of_interest.proximate_dataset_mount))
  | none =>
    (RelativePathAndSnapMounts.new relative_path_of map_of_snaps
        datasets_of_interest.proximate_dataset_mount
        datasets_of_interest.proximate_dataset_mount).map
      (fun bundle => [bundle])

/-- Rust `VersionsMap::search_bundles_from_pathdata` (versions.rs:116-128): for
each selected dataset type in order, resolve the datasets of interest and
turn them into search bundles, flattening away the two flattenable error
layers. -/
def search_bundles_from_pathdata
    (opt_map_of_alts : Option (String → Option MostProximateAndOptAlts))
    (relative_path_of : String → Option String)
    (map_of_snaps : String → Option (List String))
    (proximate_dataset_mount : String)
    (snaps_selected_for_search : List SnapDatasetType) :
    List RelativePathAndSnapMounts :=
  ((snaps_selected_for_search.filterMap
      (MostProximateAndOptAlts.new opt_map_of_alts proximate_dataset_mount)).filterMap
    (into_search_bundles relative_path_of map_of_snaps)).flatten

/-- Rust `RelativePathAndSnapMounts::versions_processed` (versions.rs:331-337):
probe the bundle's candidates and sort-and-dedup the result; a fatal probe
outcome terminates the process (`Except.error` with the exit status). -/
def versions_processed (stat : String → StatResult) (contentsOf : String → Nat)
    (uniqueness : ListSnapsOfType) (bundle : RelativePathAndSnapMounts) :
    Except Nat (List PathData) :=
  (versions_unprocessed stat contentsOf bundle.snap_mounts
      bundle.relative_path).map
    (fun all_versions => sort_dedup_versions all_versions uniqueness)

/-- The per-path candidate aggregation inside `VersionsMap::new`
(versions.rs:78-83): `flat_map` of `versions_processed` over the path's
search bundles — the per-bundle sorted-and-deduplicated lists are
concatenated in bundle order, with no global re-sort and no cross-bundle
dedup; a fatal probe outcome terminates the process. -/
def flat_map_versions_processed (stat : String → StatResult)
    (contentsOf : String → Nat) (uniqueness : ListSnapsOfType) :
    List RelativePathAndSnapMounts → Except Nat (List PathData)
  | [] => .ok []
  | bundle :: rest =>
    match versions_processed stat contentsOf uniqueness bundle with
    | .error status => .error status
    | .ok versions =>
      (flat_map_versions_processed stat contentsOf uniqueness rest).map
        (versions ++ ·)

/-! ## The mount table classifier (`parse/mounts.rs`) -/

/-- Rust `ZFS_FSTYPE` (mounts.rs:36). -/
def ZFS_FSTYPE : String := "zfs"

/-- Rust `BTRFS_FSTYPE` (mounts.rs:37). -/
def BTRFS_FSTYPE : String := "btrfs"

/-- Rust `SMB_FSTYPE` (mounts.rs:38). -/
def SMB_FSTYPE : String := "smbfs"

/-- Rust `NFS_FSTYPE` (mounts.rs:39). -/
def NFS_FSTYPE : String := "nfs"

/-- Rust `AFP_FSTYPE` (mounts.rs:40). -/
def AFP_FSTYPE : String := "afpfs"

/-- Rust `FilesystemType` (declared in `parse/aliases.rs`; the variants matched
in `parse/mounts.rs` are `Zfs` and `Btrfs`). -/
inductive FilesystemType where
  | Zfs
  | Btrfs
  deriving DecidableEq, Repr

/-- Rust `MountType` (mounts.rs:42-46). -/
inductive MountType where
  | Local
  | Network
  deriving DecidableEq, Repr

/-- Rust `DatasetMetadata` (mounts.rs:48-53). -/
structure DatasetMetadata where
  name : String
  fs_type : FilesystemType
  mount_type : MountType
  deriving DecidableEq, Repr

/-- A `proc_mounts::MountInfo` as consumed by `from_proc_mounts`: source,
destination, filesystem type and the mount options. Paths are modelled as
strings (`to_string_lossy` applied). -/
structure MountInfo where
  source : String
  dest : String
  fstype : String
  options : List String
  deriving DecidableEq, Repr

/-- Rust `str::split_once` for a single-character delimiter (the source
splits at `"="`, a one-character pattern): split at the first occurrence of
the delimiter, `None` when the delimiter does not occur. Implemented over
the character list of the string. -/
def split_once (sep : Char) : List Char → Option (List Char × List Char)
  | [] => none
  | c :: cs =>
    if c = sep then some ([], cs)
    else (split_once sep cs).map (fun p => (c :: p.1, p.2))

/-- The `keyed_options` pairs built in the btrfs branch (mounts.rs:132-140):
keep the options containing `'='` and split each at its first `'='`. -/
def keyed_options (options : List String) : List (String × String) :=
  (options.filter (fun line => line.data.contains '=')).filterMap
    (fun line =>
      (split_once '=' line.data).map (fun p => (p.1.asString, p.2.asString)))

/-- Rust `BTreeMap::get` after collecting the pairs in order: for a repeated key
the later insertion overwrites, so the last binding wins. -/
def btreemap_get (pairs : List (String × String)) (key : String) : Option String :=
  pairs.foldl (fun acc kv => if kv.1 == key then some kv.2 else acc) none

/-- The per-mount classification performed inside `partition_map` in
`BaseFilesystemInfo::from_proc_mounts` (mounts.rs:101-161): `Sum.inl` is
`Either::Left` (a recognized dataset, keyed by its mount destination),
`Sum.inr` is `Either::Right` (an unsupported mount destination bound for
the filter set). `get_fs_type_from_hidden_dir` (declared in
`library/utility.rs`) probes a mount's hidden snapshot directory; `none`
models its error case. -/
def classify_mount (get_fs_type_from_hidden_dir : String → Option FilesystemType)
    (mount_info : MountInfo) : (String × DatasetMetadata) ⊕ String :=
  if mount_info.fstype == ZFS_FSTYPE then
    Sum.inl (mount_info.dest,
      ⟨mount_info.source, FilesystemType.Zfs, MountType.Local⟩)
  else if mount_info.fstype == SMB_FSTYPE || mount_info.fstype == AFP_FSTYPE ||
      mount_info.fstype == NFS_FSTYPE then
    match get_fs_type_from_hidden_dir mount_info.dest with
    | some .Zfs =>
      Sum.inl (mount_info.dest,
        ⟨mount_info.source, FilesystemType.Zfs, MountType.Network⟩)
    | some .Btrfs =>
      Sum.inl (mount_info.dest,
        ⟨mount_info.source, FilesystemType.Btrfs, MountType.Network⟩)
    | none => Sum.inr mount_info.dest
  else if mount_info.fstype == BTRFS_FSTYPE then
    let keyed := keyed_options mount_info.options
    let name := (btreemap_get keyed "subvol").getD mount_info.source
    Sum.inl (mount_info.dest, ⟨name, FilesystemType.Btrfs, MountType.Local⟩)
  else
    Sum.inr mount_info.dest

/-! ## Helper lemmas about `vec_dedup` -/

theorem vec_dedup_tail_sublist (eqb : α → α → Bool) (xs : List α) :
    ∀ kept, List.Sublist (vec_dedup_tail eqb kept xs) xs := by
  induction xs with
  | nil => intro kept; exact List.Sublist.refl []
  | cons y ys ih =>
    intro kept
    by_cases h : eqb kept y
    · simp only [vec_dedup_tail, if_pos h]
      exact (ih kept).trans (List.sublist_cons_self y ys)
    · simp only [vec_dedup_tail, if_neg h]
      exact List.Sublist.cons₂ y (ih y)

theorem vec_dedup_sublist (eqb : α → α → Bool) (l : List α) :
    List.Sublist (vec_dedup eqb l) l := by
  cases l with
  | nil => exact List.Sublist.refl []
  | cons x xs => exact List.Sublist.cons₂ x (vec_dedup_tail_sublist eqb xs x)

theorem vec_dedup_tail_chain' (eqb : α → α → Bool) (xs : List α) :
    ∀ kept, (kept :: vec_dedup_tail eqb kept xs).Chain'
      (fun a b => eqb a b = false) := by
  induction xs with
  | nil => intro kept; simp [vec_dedup_tail]
  | cons y ys ih =>
    intro kept
    by_cases h : eqb kept y
    · simpa only [vec_dedup_tail, if_pos h] using ih kept
    · simp only [vec_dedup_tail, if_neg h]
      rw [List.chain'_cons]
      exact ⟨Bool.eq_false_iff.mpr h, ih y⟩

theorem vec_dedup_chain' (eqb : α → α → Bool) (l : List α) :
    (vec_dedup eqb l).Chain' (fun a b => eqb a b = false) := by
  cases l with
  | nil => simp [vec_dedup]
  | cons x xs => exact vec_dedup_tail_chain' eqb xs x

theorem vec_dedup_tail_eq_self (eqb : α → α → Bool) (xs : List α) :
    ∀ kept, (kept :: xs).Chain' (fun a b => eqb a b = false) →
      vec_dedup_tail eqb kept xs = xs := by
  induction xs with
  | nil => intro kept _; rfl
  | cons y ys ih =>
    intro kept h
    rw [List.chain'_cons] at h
    simp only [vec_dedup_tail, h.1, Bool.false_eq_true, if_false]
    rw [ih y h.2]

theorem vec_dedup_eq_self (eqb : α → α → Bool) (l : List α)
    (h : l.Chain' (fun a b => eqb a b = false)) : vec_dedup eqb l = l := by
  cases l with
  | nil => rfl
  | cons x xs =>
    simp only [vec_dedup]
    rw [vec_dedup_tail_eq_self eqb xs x h]

theorem vec_dedup_tail_covers (eqb : α → α → Bool)
    (href : ∀ a : α, eqb a a = true) (xs : List α) :
    ∀ kept x, x ∈ xs →
      ∃ y ∈ kept :: vec_dedup_tail eqb kept xs, eqb y x = true := by
  induction xs with
  | nil => intro kept x hx; cases hx
  | cons z zs ih =>
    intro kept x hx
    by_cases h : eqb kept z
    · simp only [vec_dedup_tail, if_pos h]
      rcases List.mem_cons.mp hx with rfl | hx'
      · exact ⟨kept, List.mem_cons_self _ _, h⟩
      · exact ih kept x hx'
    · simp only [vec_dedup_tail, if_neg h]
      rcases List.mem_cons.mp hx with rfl | hx'
      · exact ⟨x, List.mem_cons_of_mem kept (List.mem_cons_self _ _), href x⟩
      · obtain ⟨y, hy, hyx⟩ := ih z x hx'
        exact ⟨y, List.mem_cons_of_mem kept hy, hyx⟩

theorem vec_dedup_covers (eqb : α → α → Bool) (href : ∀ a : α, eqb a a = true)
    (l : List α) : ∀ x ∈ l, ∃ y ∈ vec_dedup eqb l, eqb y x = true := by
  cases l with
  | nil => intro x hx; cases hx
  | cons z zs =>
    intro x hx
    rcases List.mem_cons.mp hx with rfl | hx'
    · exact ⟨x, List.mem_cons_self _ _, href x⟩
    · exact vec_dedup_tail_covers eqb href zs z x hx'

/-! ## Claims -/

/-- C10: For every last-snapshot mode and every starting map, the two
post-processing passes (ditto omission and last-snapshot filtering), alone
and composed in their fixed order, preserve the `VersionsMap`'s key
sequence exactly: no live-path key is inserted or removed (a path whose
version list becomes empty remains present as a key), only the value lists
change. -/
theorem post_processing_preserves_keys (m : VersionsMap) (mode : LastSnapMode) :
    (omit_ditto m).map Prod.fst = m.map Prod.fst ∧
    (last_snap m mode).map Prod.fst = m.map Prod.fst ∧
    (last_snap (omit_ditto m) mode).map Prod.fst = m.map Prod.fst := by
  refine ⟨?_, ?_, ?_⟩ <;>
    simp [omit_ditto, last_snap, List.map_map, Function.comp_def]

/-- C3: For every live path with a non-empty version list, ditto omission
removes exactly the last entry when that entry's metadata equals the live
path's, leaving the earlier entries untouched; when the last entry's
metadata differs (or the list is empty) the list is unchanged. -/
theorem omit_ditto_correct (pd : PathData) (snaps : List PathData) :
    (∀ init last, snaps = init ++ [last] →
      (last.md_infallible = pd.md_infallible → omit_ditto_one pd snaps = init) ∧
      (last.md_infallible ≠ pd.md_infallible → omit_ditto_one pd snaps = snaps)) ∧
    (snaps = [] → omit_ditto_one pd snaps = snaps) := by
  constructor
  · rintro init last rfl
    constructor
    · intro heq
      simp [omit_ditto_one, is_live_version_redundant, List.getLast?_concat, heq,
        List.dropLast_concat]
    · intro hne
      simp [omit_ditto_one, is_live_version_redundant, List.getLast?_concat,
        beq_iff_eq, hne]
  · rintro rfl
    rfl

theorem omit_ditto_correct_witness :
    omit_ditto_one ⟨"/a", some ⟨1, 2⟩⟩
        [⟨"/s1/a", some ⟨1, 1⟩⟩, ⟨"/s2/a", some ⟨1, 2⟩⟩] = [⟨"/s1/a", some ⟨1, 1⟩⟩] ∧
    omit_ditto_one ⟨"/a", some ⟨1, 3⟩⟩
        [⟨"/s1/a", some ⟨1, 1⟩⟩] = [⟨"/s1/a", some ⟨1, 1⟩⟩] := by
  constructor
  · exact ((omit_ditto_correct ⟨"/a", some ⟨1, 2⟩⟩ _).1
      [⟨"/s1/a", some ⟨1, 1⟩⟩] ⟨"/s2/a", some ⟨1, 2⟩⟩ rfl).1 (by decide)
  · exact ((omit_ditto_correct ⟨"/a", some ⟨1, 3⟩⟩ _).1
      [] ⟨"/s1/a", some ⟨1, 1⟩⟩ rfl).2 (by decide)

/-- C1 counterexample: the claim says the `Without` mode leaves the version
list alone when a last snapshot exists, but `last_snap` in `Without` mode
empties a non-empty list (the `Some(last)` arm falls through to
`_ => Vec::new()`). -/
theorem last_snap_without_counterexample :
    last_snap [(⟨"/a", some ⟨1, 5⟩⟩, [⟨"/s/a", some ⟨1, 3⟩⟩])] .Without
        = [(⟨"/a", some ⟨1, 5⟩⟩, [])] ∧
    ([(⟨"/a", some ⟨1, 5⟩⟩, [])] : VersionsMap)
        ≠ [(⟨"/a", some ⟨1, 5⟩⟩, [⟨"/s/a", some ⟨1, 3⟩⟩])] := by
  constructor
  · rfl
  · decide

/-- C1 (amended): the last-snapshot mode table as the code implements it.
When a last snapshot exists: `Any` keeps exactly it; `DittoOnly` keeps it
exactly when its metadata equals the live path's; `NoDittoExclusive` and
`NoDittoInclusive` keep it exactly when its metadata differs; `Without`
keeps nothing. When no last snapshot exists: `Any`, `DittoOnly` and
`NoDittoExclusive` keep nothing; `NoDittoInclusive` and `Without` keep the
live path itself as a one-entry result. -/
theorem last_snap_mode_table (pd : PathData) (snaps : List PathData) :
    (∀ last, snaps.getLast? = some last →
      last_snap_one .Any pd snaps = [last] ∧
      last_snap_one .DittoOnly pd snaps =
        (if pd.md_infallible = last.md_infallible then [last] else []) ∧
      last_snap_one .NoDittoExclusive pd snaps =
        (if pd.md_infallible = last.md_infallible then [] else [last]) ∧
      last_snap_one .NoDittoInclusive pd snaps =
        (if pd.md_infallible = last.md_infallible then [] else [last]) ∧
      last_snap_one .Without pd snaps = []) ∧
    (snaps.getLast? = none →
      last_snap_one .Any pd snaps = [] ∧
      last_snap_one .DittoOnly pd snaps = [] ∧
      last_snap_one .NoDittoExclusive pd snaps = [] ∧
      last_snap_one .NoDittoInclusive pd snaps = [pd] ∧
      last_snap_one .Without pd snaps = [pd]) := by
  constructor
  · intro last hlast
    refine ⟨?_, ?_, ?_, ?_, ?_⟩ <;>
      simp only [last_snap_one, hlast] <;>
      by_cases h : pd.md_infallible = last.md_infallible <;>
      simp [h, beq_iff_eq, bne_iff_ne]
  · intro hnone
    refine ⟨?_, ?_, ?_, ?_, ?_⟩ <;> simp [last_snap_one, hnone]

theorem last_snap_mode_table_witness :
    last_snap_one .Without ⟨"/w", some ⟨2, 9⟩⟩ [⟨"/s/w", some ⟨2, 4⟩⟩] = [] ∧
    last_snap_one .NoDittoInclusive ⟨"/w", some ⟨2, 9⟩⟩ [] = [⟨"/w", some ⟨2, 9⟩⟩] := by
  constructor
  · exact ((last_snap_mode_table ⟨"/w", some ⟨2, 9⟩⟩ [⟨"/s/w", some ⟨2, 4⟩⟩]).1
      ⟨"/s/w", some ⟨2, 4⟩⟩ rfl).2.2.2.2
  · exact ((last_snap_mode_table ⟨"/w", some ⟨2, 9⟩⟩ []).2 rfl).2.2.2.1

/-- C2 counterexample: in `NoDittoInclusive` mode, a path whose last
snapshot has metadata identical to the live path's ends with an empty list
— zero entries, not one. -/
theorem no_ditto_inclusive_empty_counterexample :
    (last_snap_one .NoDittoInclusive ⟨"/b", some ⟨3, 7⟩⟩
      [⟨"/s/b", some ⟨3, 7⟩⟩]).length = 0 := by
  decide

/-- C2 (amended): after the `NoDittoInclusive` pass a path's list has at
most one entry; it is empty exactly when a last snapshot exists whose
metadata equals the live path's, it is the live path itself when no last
snapshot exists, and it is the last snapshot when one exists with differing
metadata. -/
theorem no_ditto_inclusive_coverage (pd : PathData) (snaps : List PathData) :
    (last_snap_one .NoDittoInclusive pd snaps).length ≤ 1 ∧
    (last_snap_one .NoDittoInclusive pd snaps = [] ↔
      ∃ last, snaps.getLast? = some last ∧ pd.md_infallible = last.md_infallible) ∧
    (snaps.getLast? = none → last_snap_one .NoDittoInclusive pd snaps = [pd]) ∧
    (∀ last, snaps.getLast? = some last → pd.md_infallible ≠ last.md_infallible →
      last_snap_one .NoDittoInclusive pd snaps = [last]) := by
  cases hlast : snaps.getLast? with
  | none => simp [last_snap_one, hlast]
  | some last =>
    by_cases h : pd.md_infallible = last.md_infallible
    · refine ⟨?_, ?_, ?_, ?_⟩
      · simp [last_snap_one, hlast, h]
      · simp [last_snap_one, hlast, h]
      · intro hc; simp at hc
      · intro last' hlast' hne
        cases hlast'
        exact absurd h hne
    · refine ⟨?_, ?_, ?_, ?_⟩
      · simp [last_snap_one, hlast, h, bne_iff_ne]
      · simp [last_snap_one, hlast, h, bne_iff_ne]
      · intro hc; simp at hc
      · intro last' hlast' _
        cases hlast'
        simp [last_snap_one, hlast, h, bne_iff_ne]

theorem collect_outcomes_ok (stat : String → StatResult)
    (contentsOf : String → Nat) (cs : List String)
    (h : ∀ c ∈ cs, stat c ≠ .err .PermissionDenied) :
    collect_outcomes (cs.map (probe_candidate stat contentsOf)) =
      .ok (cs.filterMap (probe_success stat contentsOf)) := by
  induction cs with
  | nil => rfl
  | cons c cs ih =>
    have hc : stat c ≠ .err .PermissionDenied := h c (List.mem_cons_self _ _)
    have ih' := ih (fun d hd => h d (List.mem_cons_of_mem c hd))
    cases hstat : stat c with
    | ok md =>
      simp [probe_candidate, probe_success, collect_outcomes, hstat, ih',
        Except.map]
    | err kind =>
      cases kind with
      | PermissionDenied => exact absurd hstat hc
      | NotFound =>
        simp [probe_candidate, probe_success, collect_outcomes, hstat, ih']
      | OtherKind =>
        simp [probe_candidate, probe_success, collect_outcomes, hstat, ih']

theorem collect_outcomes_fatal (stat : String → StatResult)
    (contentsOf : String → Nat) (cs : List String)
    (h : ∃ c ∈ cs, stat c = .err .PermissionDenied) :
    collect_outcomes (cs.map (probe_candidate stat contentsOf)) = .error 1 := by
  induction cs with
  | nil => obtain ⟨c, hc, _⟩ := h; cases hc
  | cons c cs ih =>
    by_cases hc : stat c = .err .PermissionDenied
    · simp [probe_candidate, hc, collect_outcomes]
    · obtain ⟨d, hd, hds⟩ := h
      rcases List.mem_cons.mp hd with rfl | hd'
      · exact absurd hds hc
      · have ih' := ih ⟨d, hd', hds⟩
        cases hstat : stat c with
        | ok md => simp [probe_candidate, hstat, collect_outcomes, ih', Except.map]
        | err kind =>
          cases kind with
          | PermissionDenied => exact absurd hstat hc
          | NotFound => simp [probe_candidate, hstat, collect_outcomes, ih']
          | OtherKind => simp [probe_candidate, hstat, collect_outcomes, ih']

/-- C4: every candidate snapshot path — a snapshot mount root joined with
the bundle's relative path — is probed with `symlink_metadata` (modelled by
the `stat` oracle, which does not follow a final symbolic link) and has
exactly three outcomes: success emits one record carrying that metadata;
permission denial prints a diagnostic and terminates the process
immediately with the non-zero status 1; any other error silently omits the
candidate, and the whole run then collects exactly the successful records. -/
theorem versions_unprocessed_outcomes (stat : String → StatResult)
    (contentsOf : String → Nat) (snap_mounts : List String)
    (relative_path : String) :
    (∀ mount ∈ snap_mounts,
      (∀ md, stat (joinPath mount relative_path) = .ok md →
        probe_candidate stat contentsOf (joinPath mount relative_path) =
          .emit ⟨⟨joinPath mount relative_path, some md⟩,
            contentsOf (joinPath mount relative_path)⟩) ∧
      (stat (joinPath mount relative_path) = .err .PermissionDenied →
        probe_candidate stat contentsOf (joinPath mount relative_path) =
          .fatalExit 1 ∧ (1 : Nat) ≠ 0) ∧
      (∀ kind, kind ≠ IoErrorKind.PermissionDenied →
        stat (joinPath mount relative_path) = .err kind →
        probe_candidate stat contentsOf (joinPath mount relative_path) = .omit)) ∧
    ((∀ mount ∈ snap_mounts,
        stat (joinPath mount relative_path) ≠ .err .PermissionDenied) →
      versions_unprocessed stat contentsOf snap_mounts relative_path =
        .ok ((snap_mounts.map (fun m => joinPath m relative_path)).filterMap
          (probe_success stat contentsOf))) ∧
    ((∃ mount ∈ snap_mounts,
        stat (joinPath mount relative_path) = .err .PermissionDenied) →
      versions_unprocessed stat contentsOf snap_mounts relative_path =
        .error 1) := by
  refine ⟨?_, ?_, ?_⟩
  · intro mount _
    refine ⟨?_, ?_, ?_⟩
    · intro md hmd; simp [probe_candidate, hmd]
    · intro hpd; exact ⟨by simp [probe_candidate, hpd], one_ne_zero⟩
    · intro kind hk hkind
      cases kind with
      | PermissionDenied => exact absurd rfl hk
      | NotFound => simp [probe_candidate, hkind]
      | OtherKind => simp [probe_candidate, hkind]
  · intro h
    unfold versions_unprocessed
    apply collect_outcomes_ok
    intro c hc
    obtain ⟨m, hm, rfl⟩ := List.mem_map.mp hc
    exact h m hm
  · intro hex
    obtain ⟨m, hm, hpd⟩ := hex
    unfold versions_unprocessed
    apply collect_outcomes_fatal
    exact ⟨joinPath m relative_path, List.mem_map_of_mem _ hm, hpd⟩

theorem versions_unprocessed_outcomes_witness :
    versions_unprocessed
        (fun c => if c = "/m1/f" then .ok ⟨1, 2⟩ else .err .NotFound)
        (fun _ => 0) ["/m1", "/m2"] "f" =
      .ok [⟨⟨"/m1/f", some ⟨1, 2⟩⟩, 0⟩] ∧
    versions_unprocessed (fun _ => .err .PermissionDenied) (fun _ => 0)
        ["/m1"] "f" = .error 1 := by
  constructor
  · have h := (versions_unprocessed_outcomes
      (fun c => if c = "/m1/f" then .ok ⟨1, 2⟩ else .err .NotFound)
      (fun _ => 0) ["/m1", "/m2"] "f").2.1 (by decide)
    rw [h]
    rfl
  · exact (versions_unprocessed_outcomes
      (fun _ => .err .PermissionDenied) (fun _ => 0) ["/m1"] "f").2.2
      ⟨"/m1", List.mem_cons_self _ _, rfl⟩

theorem pairwise_map_toPathData {l : List CompareVersionsContainer}
    (h : l.Pairwise cvc_le) :
    (l.map CompareVersionsContainer.toPathData).Pairwise pd_le := by
  rw [List.pairwise_map]
  exact h

theorem cvc_eq_refl (uniq : ListSnapsOfType) (a : CompareVersionsContainer) :
    cvc_eq uniq a a = true := by
  cases uniq <;> simp [cvc_eq]

/-- C5 counterexample: the claim as frozen speaks of every path's list in a
freshly built `VersionSet`, but `VersionsMap::new` concatenates the
per-bundle outputs of `versions_processed` with no global re-sort: with an
alternate bundle present (searched before the proximate one), the freshly
built list has modification times 100, 300, 200 — not non-decreasing. -/
theorem fresh_list_not_sorted_counterexample :
    flat_map_versions_processed
        (fun c => if c = "/alt/s1/f" then .ok ⟨1, 100⟩
          else if c = "/alt/s2/f" then .ok ⟨1, 300⟩
          else if c = "/p/s1/f" then .ok ⟨1, 200⟩ else .err .NotFound)
        (fun _ => 0) .All
        (search_bundles_from_pathdata
          (some fun s => if s = "/p" then
            some ⟨"/alt", some ["/d1"]⟩ else none)
          (fun s => if s = "/alt" then some "f"
            else if s = "/p" then some "f" else none)
          (fun s => if s = "/d1" then some ["/alt/s1", "/alt/s2"]
            else if s = "/p" then some ["/p/s1"] else none)
          "/p" SnapsSelectedForSearch.IncludeAltReplicated.as_slice) =
      .ok [⟨"/alt/s1/f", some ⟨1, 100⟩⟩, ⟨"/alt/s2/f", some ⟨1, 300⟩⟩,
        ⟨"/p/s1/f", some ⟨1, 200⟩⟩] ∧
    ¬ ([(⟨"/alt/s1/f", some ⟨1, 100⟩⟩ : PathData),
        ⟨"/alt/s2/f", some ⟨1, 300⟩⟩,
        ⟨"/p/s1/f", some ⟨1, 200⟩⟩].Pairwise pd_le) := by
  constructor
  · rfl
  · decide

/-- C5 (amended): the sort-and-dedup step runs once per search bundle —
each path's list in a freshly built `VersionSet` is the concatenation of
these per-bundle lists in bundle order, with no global re-sort and no
cross-bundle dedup. For every single bundle's candidate list, the output of
`sort_dedup_versions` is sorted non-decreasing by modification time with
ties broken by path; under `All` the sort output is returned whole (a
permutation of the probed entries, metadata-identical neighbours included);
under `UniqueMetadata`/`UniqueContents` the dedup step runs on the already
sorted list and collapses adjacent policy-equal entries, keeping the
earliest of each run: the result is a sublist of the `All` result, its
adjacent entries are policy-distinct, and every probed entry is represented
by some retained policy-equal entry. -/
theorem sort_dedup_versions_invariants (versions : List CompareVersionsContainer)
    (uniq : ListSnapsOfType) :
    (sort_dedup_versions versions uniq).Pairwise pd_le ∧
    sort_dedup_versions versions .All =
      (versions.insertionSort cvc_le).map CompareVersionsContainer.toPathData ∧
    (sort_dedup_versions versions .All).Perm
      (versions.map CompareVersionsContainer.toPathData) ∧
    (uniq = .UniqueMetadata ∨ uniq = .UniqueContents →
      sort_dedup_versions versions uniq =
        (vec_dedup (cvc_eq uniq) (versions.insertionSort cvc_le)).map
          CompareVersionsContainer.toPathData ∧
      List.Sublist (sort_dedup_versions versions uniq)
        (sort_dedup_versions versions .All) ∧
      (vec_dedup (cvc_eq uniq) (versions.insertionSort cvc_le)).Chain'
        (fun a b => cvc_eq uniq a b = false) ∧
      ∀ c ∈ versions.insertionSort cvc_le,
        ∃ d ∈ vec_dedup (cvc_eq uniq) (versions.insertionSort cvc_le),
          cvc_eq uniq d c = true) := by
  have hsorted : (versions.insertionSort cvc_le).Pairwise cvc_le :=
    List.sorted_insertionSort cvc_le versions
  refine ⟨?_, rfl, ?_, ?_⟩
  · cases uniq with
    | All => exact pairwise_map_toPathData hsorted
    | UniqueMetadata =>
      exact pairwise_map_toPathData
        (List.Pairwise.sublist (vec_dedup_sublist _ _) hsorted)
    | UniqueContents =>
      exact pairwise_map_toPathData
        (List.Pairwise.sublist (vec_dedup_sublist _ _) hsorted)
  · exact (List.perm_insertionSort cvc_le versions).map _
  · intro h
    refine ⟨?_, ?_, vec_dedup_chain' _ _, vec_dedup_covers _ (cvc_eq_refl uniq) _⟩
    · rcases h with rfl | rfl <;> rfl
    · rcases h with rfl | rfl <;>
        exact List.Sublist.map _ (vec_dedup_sublist _ _)

theorem sort_dedup_versions_invariants_witness :
    sort_dedup_versions
        [⟨⟨"/s2/f", some ⟨5, 9⟩⟩, 3⟩, ⟨⟨"/s1/f", some ⟨5, 9⟩⟩, 7⟩]
        .UniqueMetadata = [⟨"/s1/f", some ⟨5, 9⟩⟩] := by
  have h := ((sort_dedup_versions_invariants
    [⟨⟨"/s2/f", some ⟨5, 9⟩⟩, 3⟩, ⟨⟨"/s1/f", some ⟨5, 9⟩⟩, 7⟩]
    .UniqueMetadata).2.2.2 (Or.inl rfl)).1
  rw [h]
  decide

/-- C8: `sort_dedup_versions` under `UniqueMetadata` is idempotent: applied
to a list it has already produced (re-wrapped into fresh containers, as
re-running the aggregator would), it returns that list unchanged. -/
theorem sort_dedup_unique_metadata_idempotent
    (versions : List CompareVersionsContainer) :
    sort_dedup_versions
      ((sort_dedup_versions versions .UniqueMetadata).map
        (fun pd => (⟨pd, 0⟩ : CompareVersionsContainer)))
      .UniqueMetadata =
    sort_dedup_versions versions .UniqueMetadata := by
  have hsorted : (versions.insertionSort cvc_le).Pairwise cvc_le :=
    List.sorted_insertionSort cvc_le versions
  have hd : (vec_dedup (cvc_eq .UniqueMetadata)
      (versions.insertionSort cvc_le)).Pairwise cvc_le :=
    List.Pairwise.sublist (vec_dedup_sublist _ _) hsorted
  show sort_dedup_versions
      (((vec_dedup (cvc_eq .UniqueMetadata) (versions.insertionSort cvc_le)).map
        CompareVersionsContainer.toPathData).map
          (fun pd => (⟨pd, 0⟩ : CompareVersionsContainer)))
      .UniqueMetadata =
    (vec_dedup (cvc_eq .UniqueMetadata) (versions.insertionSort cvc_le)).map
      CompareVersionsContainer.toPathData
  rw [List.map_map]
  have hX : ((vec_dedup (cvc_eq .UniqueMetadata)
      (versions.insertionSort cvc_le)).map
        (fun c => (⟨c.pathdata, 0⟩ : CompareVersionsContainer))).Pairwise
      cvc_le := by
    rw [List.pairwise_map]
    exact hd
  have hsort_eq := List.Sorted.insertionSort_eq hX
  have hchain : ((vec_dedup (cvc_eq .UniqueMetadata)
      (versions.insertionSort cvc_le)).map
        (fun c => (⟨c.pathdata, 0⟩ : CompareVersionsContainer))).Chain'
      (fun a b => cvc_eq .UniqueMetadata a b = false) := by
    rw [List.chain'_map]
    exact vec_dedup_chain' _ _
  show (vec_dedup (cvc_eq .UniqueMetadata)
      (((vec_dedup (cvc_eq .UniqueMetadata) (versions.insertionSort cvc_le)).map
        (fun c => (⟨c.pathdata, 0⟩ : CompareVersionsContainer))).insertionSort
          cvc_le)).map CompareVersionsContainer.toPathData =
    (vec_dedup (cvc_eq .UniqueMetadata) (versions.insertionSort cvc_le)).map
      CompareVersionsContainer.toPathData
  rw [hsort_eq, vec_dedup_eq_self _ _ hchain, List.map_map]
  rfl

theorem mapM_bundles_eq (relative_path_of : String → Option String)
    (map_of_snaps : String → Option (List String)) (prox relProx : String)
    (hrel : relative_path_of prox = some relProx)
    (ds : List String) (snapsOf : String → List String)
    (hds : ∀ d ∈ ds, map_of_snaps d = some (snapsOf d)) :
    collect_results (ds.map
        (RelativePathAndSnapMounts.new relative_path_of map_of_snaps prox)) =
      some (ds.map (fun d => ⟨relProx, snapsOf d⟩)) := by
  induction ds with
  | nil => rfl
  | cons d ds ih =>
    have hd := hds d (List.mem_cons_self _ _)
    have ih' := ih (fun x hx => hds x (List.mem_cons_of_mem d hx))
    simp [collect_results, RelativePathAndSnapMounts.new, hrel, hd, ih',
      Option.bind]

/-- C7: with alternate-dataset search requested (`IncludeAltReplicated`),
when the map of alternates has an entry for the path's proximate dataset,
the alternate datasets are searched in addition to the proximate dataset,
and the search bundles — hence the flattened, not-yet-time-sorted candidate
entries they produce — for the alternate datasets precede the bundle for
the proximate dataset, mirroring the order of `INCLUDE_ALTS`. -/
theorem search_bundles_alternates_first
    (map_of_alts : String → Option MostProximateAndOptAlts)
    (relative_path_of : String → Option String)
    (map_of_snaps : String → Option (List String))
    (prox altProx relAlt relProx : String) (ds : List String)
    (snapsOf : String → List String) (proxSnaps : List String)
    (halts : map_of_alts prox = some ⟨altProx, some ds⟩)
    (hrelA : relative_path_of altProx = some relAlt)
    (hrelP : relative_path_of prox = some relProx)
    (hds : ∀ d ∈ ds, map_of_snaps d = some (snapsOf d))
    (hproxsnaps : map_of_snaps prox = some proxSnaps) :
    search_bundles_from_pathdata (some map_of_alts) relative_path_of
        map_of_snaps prox SnapsSelectedForSearch.IncludeAltReplicated.as_slice =
      (ds.map fun d => (⟨relAlt, snapsOf d⟩ : RelativePathAndSnapMounts)) ++
        [⟨relProx, proxSnaps⟩] ∧
    ∀ versionsOf : RelativePathAndSnapMounts → List PathData,
      ((search_bundles_from_pathdata (some map_of_alts) relative_path_of
          map_of_snaps prox
          SnapsSelectedForSearch.IncludeAltReplicated.as_slice).map
        versionsOf).flatten =
      ((ds.map fun d =>
          (⟨relAlt, snapsOf d⟩ : RelativePathAndSnapMounts)).map
        versionsOf).flatten ++ versionsOf ⟨relProx, proxSnaps⟩ := by
  have hmapM := mapM_bundles_eq relative_path_of map_of_snaps altProx relAlt
    hrelA ds snapsOf hds
  have hmain : search_bundles_from_pathdata (some map_of_alts) relative_path_of
      map_of_snaps prox SnapsSelectedForSearch.IncludeAltReplicated.as_slice =
      (ds.map fun d => (⟨relAlt, snapsOf d⟩ : RelativePathAndSnapMounts)) ++
        [⟨relProx, proxSnaps⟩] := by
    simp [search_bundles_from_pathdata, SnapsSelectedForSearch.as_slice,
      INCLUDE_ALTS, MostProximateAndOptAlts.new, halts, into_search_bundles,
      hmapM, RelativePathAndSnapMounts.new, hrelP, hproxsnaps, Option.bind,
      List.filterMap_cons]
  refine ⟨hmain, fun versionsOf => ?_⟩
  rw [hmain]
  simp

theorem search_bundles_alternates_first_witness :
    search_bundles_from_pathdata
        (some fun s => if s = "/p" then
          some ⟨"/alt", some ["/d1", "/d2"]⟩ else none)
        (fun s => if s = "/alt" then some "rA"
          else if s = "/p" then some "rP" else none)
        (fun s => if s = "/d1" then some ["/d1/s1"]
          else if s = "/d2" then some ["/d2/s1", "/d2/s2"]
          else if s = "/p" then some ["/p/s1"] else none)
        "/p" SnapsSelectedForSearch.IncludeAltReplicated.as_slice =
      [⟨"rA", ["/d1/s1"]⟩, ⟨"rA", ["/d2/s1", "/d2/s2"]⟩, ⟨"rP", ["/p/s1"]⟩] := by
  have h := (search_bundles_alternates_first
    (fun s => if s = "/p" then some ⟨"/alt", some ["/d1", "/d2"]⟩ else none)
    (fun s => if s = "/alt" then some "rA"
      else if s = "/p" then some "rP" else none)
    (fun s => if s = "/d1" then some ["/d1/s1"]
      else if s = "/d2" then some ["/d2/s1", "/d2/s2"]
      else if s = "/p" then some ["/p/s1"] else none)
    "/p" "/alt" "rA" "rP" ["/d1", "/d2"]
    (fun s => if s = "/d1" then ["/d1/s1"] else ["/d2/s1", "/d2/s2"])
    ["/p/s1"] (by decide) (by decide) (by decide) (by decide) (by decide)).1
  rw [h]
  decide

theorem btreemap_get_foldl_none (key : String)
    (pairs : List (String × String)) :
    ∀ acc : Option String,
      pairs.foldl (fun a kv => if kv.1 == key then some kv.2 else a) acc =
          none ↔
        (acc = none ∧ ∀ v, (key, v) ∉ pairs) := by
  induction pairs with
  | nil => intro acc; simp
  | cons kv rest ih =>
    intro acc
    rw [List.foldl_cons, ih]
    constructor
    · rintro ⟨hstep, hrest⟩
      by_cases hk : (kv.1 == key) = true
      · rw [if_pos hk] at hstep
        cases hstep
      · rw [if_neg hk] at hstep
        refine ⟨hstep, fun v hv => ?_⟩
        rcases List.mem_cons.mp hv with heq | hmem
        · exact hk (by rw [← heq]; exact beq_self_eq_true key)
        · exact hrest v hmem
    · rintro ⟨hacc, hnot⟩
      have hk : (kv.1 == key) = false := by
        rw [beq_eq_false_iff_ne]
        intro hEq
        exact hnot kv.2 (by
          have hkv : (key, kv.2) = kv := Prod.ext hEq.symm rfl
          rw [hkv]
          exact List.mem_cons_self _ _)
      simp only [hk, Bool.false_eq_true, if_false]
      exact ⟨hacc, fun v hv => hnot v (List.mem_cons_of_mem _ hv)⟩

theorem btreemap_get_eq_none (pairs : List (String × String)) (key : String) :
    btreemap_get pairs key = none ↔ ∀ v, (key, v) ∉ pairs := by
  have h := btreemap_get_foldl_none key pairs none
  simpa [btreemap_get] using h

/-- C9: a mount-table entry whose filesystem type is btrfs is classified as
a supported Local btrfs dataset keyed by its destination; its name is the
value bound to the `subvol` key among the mount's `key=value` options when
one is present (the last binding if repeated, since later insertions into
the keyed-option map overwrite earlier ones), and the mount's source string
when no option binds `subvol`. -/
theorem classify_mount_btrfs (probe : String → Option FilesystemType)
    (mount_info : MountInfo) (h : mount_info.fstype = "btrfs") :
    (∀ v, btreemap_get (keyed_options mount_info.options) "subvol" = some v →
      classify_mount probe mount_info =
        Sum.inl (mount_info.dest,
          ⟨v, FilesystemType.Btrfs, MountType.Local⟩)) ∧
    (btreemap_get (keyed_options mount_info.options) "subvol" = none →
      classify_mount probe mount_info =
        Sum.inl (mount_info.dest,
          ⟨mount_info.source, FilesystemType.Btrfs, MountType.Local⟩)) ∧
    (btreemap_get (keyed_options mount_info.options) "subvol" = none ↔
      ∀ v, ("subvol", v) ∉ keyed_options mount_info.options) := by
  refine ⟨?_, ?_, btreemap_get_eq_none _ _⟩
  · intro v hv
    simp [classify_mount, h, ZFS_FSTYPE, SMB_FSTYPE, AFP_FSTYPE, NFS_FSTYPE,
      BTRFS_FSTYPE, hv]
  · intro hnone
    simp [classify_mount, h, ZFS_FSTYPE, SMB_FSTYPE, AFP_FSTYPE, NFS_FSTYPE,
      BTRFS_FSTYPE, hnone]

theorem classify_mount_btrfs_witness :
    classify_mount (fun _ => none)
        ⟨"/dev/sda2", "/home", "btrfs", ["rw", "subvol=/@home"]⟩ =
      Sum.inl ("/home", ⟨"/@home", FilesystemType.Btrfs, MountType.Local⟩) ∧
    classify_mount (fun _ => none)
        ⟨"/dev/sda2", "/home", "btrfs", ["rw"]⟩ =
      Sum.inl ("/home",
        ⟨"/dev/sda2", FilesystemType.Btrfs, MountType.Local⟩) := by
  constructor
  · exact (classify_mount_btrfs (fun _ => none)
      ⟨"/dev/sda2", "/home", "btrfs", ["rw", "subvol=/@home"]⟩ rfl).1
      "/@home" (by decide)
  · exact (classify_mount_btrfs (fun _ => none)
      ⟨"/dev/sda2", "/home", "btrfs", ["rw"]⟩ rfl).2.1 (by decide)

/-- C6: the aggregator's build fails with the "nothing found" error exactly
when every input path's version list is empty, every input path is phantom,
and the caller has not requested `BulkExclusion::NoSnap`; in every other
case it returns an assembled `VersionsMap` successfully. -/
theorem versions_map_new_failure_iff (config : Config) (m : VersionsMap) :
    ((∃ e, VersionsMap.new config m = .error e) ↔
      ((∀ p ∈ m, p.2 = []) ∧ (∀ p ∈ m, p.1.metadata = none) ∧
        config.opt_bulk_exclusion ≠ some BulkExclusion.NoSnap)) ∧
    ((∃ r, VersionsMap.new config m = .ok r) ↔
      ¬((∀ p ∈ m, p.2 = []) ∧ (∀ p ∈ m, p.1.metadata = none) ∧
        config.opt_bulk_exclusion ≠ some BulkExclusion.NoSnap)) := by
  have hiff : ((m.all fun e => e.2.isEmpty) && (m.all fun e => e.1.metadata.isNone) &&
      !(config.opt_bulk_exclusion == some BulkExclusion.NoSnap)) = true ↔
      ((∀ p ∈ m, p.2 = []) ∧ (∀ p ∈ m, p.1.metadata = none) ∧
        config.opt_bulk_exclusion ≠ some BulkExclusion.NoSnap) := by
    simp [List.all_eq_true, and_assoc, Option.isNone_iff_eq_none,
      List.isEmpty_iff]
  rw [← hiff]
  by_cases hcond : ((m.all fun e => e.2.isEmpty) &&
      (m.all fun e => e.1.metadata.isNone) &&
      !(config.opt_bulk_exclusion == some BulkExclusion.NoSnap)) = true
  · constructor
    · simp [VersionsMap.new, hcond]
    · simp [VersionsMap.new, hcond]
  · constructor
    · simp [VersionsMap.new, hcond]
    · simp [VersionsMap.new, hcond]

theorem no_ditto_inclusive_coverage_witness :
    last_snap_one .NoDittoInclusive ⟨"/c", some ⟨1, 9⟩⟩ [⟨"/s/c", some ⟨1, 4⟩⟩]
      = [⟨"/s/c", some ⟨1, 4⟩⟩] :=
  (no_ditto_inclusive_coverage ⟨"/c", some ⟨1, 9⟩⟩ [⟨"/s/c", some ⟨1, 4⟩⟩]).2.2.2
    ⟨"/s/c", some ⟨1, 4⟩⟩ rfl (by decide)

end Httm
